import Mathlib

/-!
# Verification of `cuvis.cpp` spectral helpers

Shallow embedding of `src/auxiliary/include/cuvis_spectral.hpp`
(namespace `cuvis::aux::spectral`) and proofs about it.

Modelling conventions:
* C++ `double` arithmetic is modelled exactly, over `ℚ` (every `double`
  is a rational; the spec's claims are about the exact algebraic
  formulas, not about rounding of IEEE operations).
* `std::sqrt` is irrational, hence not representable in `ℚ`.  The struct
  `spectral_mean_t` therefore stores the *radicand* of the standard
  deviation in the field `stdSq`; the standard deviation the C++ code
  stores is `Real.sqrt stdSq`, and all statements about `std` are phrased
  through `Real.sqrt`.
* OpenCV (`cv::fillPoly`, `cv::minMaxLoc`, `cv::calcHist`) is an external
  dependency, not part of this repository.  `cv::fillPoly` is passed in
  as an explicit function argument (the rasterizer); `cv::minMaxLoc` and
  `cv::calcHist` are modelled from the spec (see the doc comments of
  `cubeMax` and `bucketIdx`).
* The cube (`image_t`) carries its raw buffer as a total function
  `ℤ → ℚ` and its wavelength table as a total function `ℕ → ℕ`; the
  preconditions of the C++ `assert`s appear as hypotheses of theorems.
-/

namespace cuvis.aux.spectral

/-- C++ conversion `double → int`: truncation toward zero. -/
def truncQ (q : ℚ) : ℤ := if 0 ≤ q then ⌊q⌋ else ⌈q⌉

/-- `std::round`: rounding to nearest, halfway cases away from zero. -/
def roundHalfAway (q : ℚ) : ℤ := if 0 ≤ q then ⌊q + 1/2⌋ else ⌈q - 1/2⌉

/-- The element-type categories distinguished by `get_mat_datatype`
(`std::is_floating_point` / `std::is_signed`). -/
inductive DataCategory where
  | unsignedInt : DataCategory
  | signedInt : DataCategory
  | floatingPoint : DataCategory
deriving DecidableEq

/-- OpenCV depth constants (from `opencv2/core/hal/interface.h`). -/
def CV_8U : ℤ := 0
def CV_8S : ℤ := 1
def CV_16U : ℤ := 2
def CV_16S : ℤ := 3
def CV_32S : ℤ := 4
def CV_32F : ℤ := 5
def CV_64F : ℤ := 6
def CV_16F : ℤ := 7

/-- OpenCV `CV_MAKETYPE(depth, cn) = depth + ((cn-1) << CV_CN_SHIFT)`,
with `CV_CN_SHIFT = 3`. -/
def CV_MAKETYPE (depth : ℤ) (cn : ℤ) : ℤ := depth + (cn - 1) * 8

/-- Embedding of `get_mat_datatype<data_t>(int channel_count)`.
The template parameter `data_t` is represented by its category and its
byte width (`sizeof(data_t)`); `throw std::invalid_argument` is modelled
by `Except.error`. -/
def get_mat_datatype (cat : DataCategory) (byteWidth : ℕ) (channel_count : ℤ) :
    Except String ℤ :=
  if channel_count < 1 ∨ channel_count > 511 then
    Except.error "Invalid channel count"
  else
    match cat with
    | DataCategory.unsignedInt =>
      match byteWidth with
      | 1 => Except.ok (CV_MAKETYPE CV_8U channel_count)
      | 2 => Except.ok (CV_MAKETYPE CV_16U channel_count)
      | _ => Except.error "Invalid bitdepth for unsigned integer data type"
    | DataCategory.signedInt =>
      match byteWidth with
      | 1 => Except.ok (CV_MAKETYPE CV_8S channel_count)
      | 2 => Except.ok (CV_MAKETYPE CV_16S channel_count)
      | 4 => Except.ok (CV_MAKETYPE CV_32S channel_count)
      | _ => Except.error "Invalid bitdepth for signed integer data type"
    | DataCategory.floatingPoint =>
      match byteWidth with
      | 2 => Except.ok (CV_MAKETYPE CV_16F channel_count)
      | 4 => Except.ok (CV_MAKETYPE CV_32F channel_count)
      | 8 => Except.ok (CV_MAKETYPE CV_64F channel_count)
      | _ => Except.error "Invalid bitdepth for floating point data type"

/-- Embedding of `cuvis::image_t<data_t>`: width, height, channel count,
raw buffer (total function over indices; the code reads
`_data[(y*W+x)*C+z]`), and the wavelength table `_wavelength`. -/
structure image_t where
  width : ℕ
  height : ℕ
  channels : ℕ
  data : ℤ → ℚ
  wavelength : ℕ → ℕ

/-- Embedding of `spectral_mean_t`.  `value` and `stdSq` carry the C++
default member initializers (`value = -999.0`, `std = 0.0`); as explained
in the file header, the C++ field `std` equals `Real.sqrt stdSq`, and
`stdSq` stores the radicand computed at line 202 of the source. -/
structure spectral_mean_t where
  wavelength : ℕ := 0
  value : ℚ := -999
  stdSq : ℚ := 0
deriving DecidableEq

/-- Embedding of `point_t` (normalized coordinates, `double`). -/
structure point_t where
  x : ℚ
  y : ℚ
deriving DecidableEq

/-- Conversion of polygon relative coordinates to absolute pixel
coordinates: `transformed_pt.emplace_back(pt._x * (W - 1), pt._y * (H - 1))`.
`cv::Point` holds `int`s, so the C++ `double → int` conversion truncates
toward zero per vertex coordinate. -/
def transformed_pt (img : image_t) (poly : List point_t) : List (ℤ × ℤ) :=
  poly.map fun pt =>
    (truncQ (pt.x * ((img.width : ℚ) - 1)), truncQ (pt.y * ((img.height : ℚ) - 1)))

/-- A rasterizer: the model of `cv::fillPoly` writing `cv::Scalar(255)`
into a `CV_8UC1` zero mask.  It receives the transformed (integer) vertex
list and yields the mask, accessed `mask.at<uint8>(y, x)` (row `y`,
column `x`). -/
def Rasterizer : Type := List (ℤ × ℤ) → ℕ → ℕ → ℕ

/-- The pixels visited by the double loop `for x < W, for y < H` that pass
the code's mask test `mask.at<uint8>(y, x) > 128`
(pairs are `(x, y)`). -/
def maskedPixels (img : image_t) (mask : ℕ → ℕ → ℕ) : Finset (ℕ × ℕ) :=
  (Finset.range img.width ×ˢ Finset.range img.height).filter fun p => 128 < mask p.2 p.1

/-- The raw reading `img._data[((y)*W + (x))*C + (z)]` (line 183). -/
def pixVal (img : image_t) (x y z : ℕ) : ℚ :=
  img.data (((y * img.width + x) * img.channels + z : ℕ) : ℤ)

/-- The accumulator `sum_v[z]` after the pixel loops: sum of the channel-z
values of all pixels passing the mask test. -/
def sum_v (img : image_t) (mask : ℕ → ℕ → ℕ) (z : ℕ) : ℚ :=
  ∑ p ∈ maskedPixels img mask, pixVal img p.1 p.2 z

/-- The accumulator `sq_sum_v[z]` after the pixel loops. -/
def sq_sum_v (img : image_t) (mask : ℕ → ℕ → ℕ) (z : ℕ) : ℚ :=
  ∑ p ∈ maskedPixels img mask, pixVal img p.1 p.2 z * pixVal img p.1 p.2 z

/-- The counter `n` after the pixel loops. -/
def insideCount (img : image_t) (mask : ℕ → ℕ → ℕ) : ℕ :=
  (maskedPixels img mask).card

/-- The polygon branch (lines 146-210): per channel `z`,
`mean = sum_v[z]/n`, `std = sqrt((sq_sum_v[z] - 2*sum_v[z]*mean)/n + mean*mean)`
(the radicand is stored in `stdSq`), `wavelength = img._wavelength[z]`. -/
def polygonSpectrum (img : image_t) (mask : ℕ → ℕ → ℕ) : List spectral_mean_t :=
  (List.range img.channels).map fun z =>
    let n : ℚ := (insideCount img mask : ℚ)
    let mean : ℚ := sum_v img mask z / n
    { wavelength := img.wavelength z
      value := mean
      stdSq := (sq_sum_v img mask z - 2 * sum_v img mask z * mean) / n + mean * mean }

/-- The in-range single point branch (lines 222-236): per channel `z`,
`y_shift = round(y*(H-1)) * W`, `xy_shift = y_shift + round(x*(W-1))`,
`value = img._data[xy_shift*C + z]`, `std` left at its `0.0` default. -/
def singlePointSpectrum (img : image_t) (pt : point_t) : List spectral_mean_t :=
  (List.range img.channels).map fun z =>
    let y_shift : ℤ := roundHalfAway (pt.y * ((img.height : ℚ) - 1)) * (img.width : ℤ)
    let xy_shift : ℤ := y_shift + roundHalfAway (pt.x * ((img.width : ℚ) - 1))
    { wavelength := img.wavelength z
      value := img.data (xy_shift * (img.channels : ℤ) + (z : ℤ))
      stdSq := 0 }

/-- `spectrum_t res(img._channels)`: the value-initialized result, which is
what the empty-polygon and out-of-range branches return unchanged
(wavelength zero-initialized, `value = -999.0`, `std = 0.0`). -/
def defaultSpectrum (img : image_t) : List spectral_mean_t :=
  List.replicate img.channels {}

/-- Embedding of `get_spectrum_polygon(img, poly)`; the external
`cv::fillPoly` is supplied as the `fillPoly` argument. -/
def get_spectrum_polygon (fillPoly : Rasterizer) (img : image_t)
    (poly : List point_t) : List spectral_mean_t :=
  if 1 < poly.length then
    polygonSpectrum img (fillPoly (transformed_pt img poly))
  else
    match poly with
    | [pt] =>
      if pt.x > 1 ∨ pt.x < 0 ∨ pt.y > 1 ∨ pt.y < 0 then defaultSpectrum img
      else singlePointSpectrum img pt
    | _ => defaultSpectrum img

/-- Embedding of `cuvis_processing_mode_t`.  Modelled from the spec:
"`ProcessingMode` is an externally defined enumeration; this core only
distinguishes one recognized value (reflectance-scaled output,
`Cube_Reflectance`) from all others". -/
inductive cuvis_processing_mode_t where
  | Preview : cuvis_processing_mode_t
  | Cube_Raw : cuvis_processing_mode_t
  | Cube_DarkSubtract : cuvis_processing_mode_t
  | Cube_Reflectance : cuvis_processing_mode_t
  | Cube_SpectralRadiance : cuvis_processing_mode_t
deriving DecidableEq

/-- Embedding of `histogram_t`: center wavelength, bucket labels
(`count`, `float` in the source, exact here), bucket counts
(`occurrence`, `uint64`). -/
structure histogram_t where
  wavelength : ℕ
  count : List ℚ
  occurrence : List ℕ
deriving DecidableEq

/-- Modelled from the spec: `cv::minMaxLoc` on the whole cube — "scan the
entire cube once and take the true maximum element value".  The fold
visits every element of the `W*H*C` buffer. -/
def cubeMax (img : image_t) : ℚ :=
  (List.range (img.width * img.height * img.channels)).foldl
    (fun acc (i : ℕ) => max acc (img.data (i : ℤ))) (img.data 0)

/-- Modelled from the spec: the bucket assignment of `cv::calcHist` with
`count_bins` "uniform buckets over the value range `[0, max_val]`";
"values falling outside `[0, max_val]` are excluded from all bucket
counts (not clamped into the edge buckets)".  An in-range value `v`
lands in bucket `⌊v * count_bins / max_val⌋`, the upper end of the range
in the last bucket. -/
def bucketIdx (max_val : ℚ) (count_bins : ℕ) (v : ℚ) : Option ℕ :=
  if v < 0 ∨ max_val < v then none
  else some (min (⌊v * (count_bins : ℚ) / max_val⌋).toNat (count_bins - 1))

/-- The sample pool of group `g`: all pairs (pixel `p`, in-group channel
offset `c`), matching the accumulation loop over
`channels[0] = c + count * img_channels_per_wlbin` at lines 297-302. -/
def groupSamples (img : image_t) (cpg : ℕ) : Finset (ℕ × ℕ) :=
  Finset.range (img.width * img.height) ×ˢ Finset.range cpg

/-- The raw value of sample `s` of group `g`: pixel `s.1`, channel
`g*cpg + s.2`, at buffer index `s.1 * C + (g*cpg + s.2)`. -/
def sampleVal (img : image_t) (cpg g : ℕ) (s : ℕ × ℕ) : ℚ :=
  img.data ((s.1 * img.channels + (g * cpg + s.2) : ℕ) : ℤ)

/-- `occurrence[i]` of group `g`: the number of samples of the group whose
value falls into bucket `i`. -/
def occurrenceCount (img : image_t) (max_val : ℚ) (count_bins cpg g i : ℕ) : ℕ :=
  ((groupSamples img cpg).filter
    (fun s => bucketIdx max_val count_bins (sampleVal img cpg g s) = some i)).card

/-- Embedding of
`get_histogram<data_t>(img, histogram_min_size, count_bins, wavelength_bins, detect_max_value, proc_mode)`.

* `typeMax` stands for `std::numeric_limits<data_t>::max()` of the
  template parameter.
* `histogram_min_size` only occurs in the `assert` at line 261 and so
  appears as a hypothesis of the theorems, not as an argument here;
  likewise the call to `get_mat_datatype` only validates
  `1 ≤ C ≤ 511`, which the theorems take as hypotheses.
* `img_channels_per_wlbin = int(double(C) / double(wavelength_bins))` and
  `histogram_count = C / img_channels_per_wlbin` are exact integer
  truncations of nonnegative quotients, i.e. `ℕ` division (for the
  magnitudes admitted by `get_mat_datatype`, `C ≤ 511`, the intermediate
  `double` division is exact enough that truncating it is `ℕ` division). -/
def get_histogram (img : image_t) (typeMax : ℚ) (count_bins wavelength_bins : ℕ)
    (detect_max_value : Bool) (proc_mode : cuvis_processing_mode_t) :
    List histogram_t :=
  let max_val : ℚ := if detect_max_value then cubeMax img else typeMax
  let bin_size : ℚ := max_val / (count_bins : ℚ)
  let img_channels_per_wlbin : ℕ := img.channels / wavelength_bins
  let histogram_count : ℕ := img.channels / img_channels_per_wlbin
  (List.range histogram_count).map fun g =>
    { wavelength := img.wavelength (g * img_channels_per_wlbin + img_channels_per_wlbin / 2)
      count := (List.range count_bins).map fun i : ℕ =>
        if proc_mode = cuvis_processing_mode_t.Cube_Reflectance then
          ((i : ℚ) * bin_size) / 100
        else
          (i : ℚ) * bin_size
      occurrence := (List.range count_bins).map fun i =>
        occurrenceCount img max_val count_bins img_channels_per_wlbin g i }

/-- Spec-side counterpart of `maskedPixels`, for comparison: the pixels
"whose mask value exceeds half the maximum mask intensity" (the mask is
`CV_8UC1`, maximum intensity `255`; exceeding half of it is `2*m > 255`). -/
def specInsideSet (img : image_t) (mask : ℕ → ℕ → ℕ) : Finset (ℕ × ℕ) :=
  (Finset.range img.width ×ˢ Finset.range img.height).filter fun p => 255 < 2 * mask p.2 p.1

/-! ### Concrete fixtures used by witnesses and counterexamples -/

/-- 2×2 cube, 1 channel, every element `3`, wavelength table `500`. -/
def imgConst : image_t :=
  { width := 2, height := 2, channels := 1, data := fun _ => 3, wavelength := fun _ => 500 }

/-- A rasterizer filling the whole mask with `255`. -/
def fpFull : Rasterizer := fun _ _ _ => 255

/-- A two-point polygon with in-range vertices. -/
def polySquare : List point_t := [{ x := 0, y := 0 }, { x := 1, y := 1 }]

/-- 3×2 cube, 1 channel, zero data. -/
def imgW3 : image_t :=
  { width := 3, height := 2, channels := 1, data := fun _ => 0, wavelength := fun _ => 0 }

/-- A two-point polygon whose first vertex scales to the non-integer
pixel abscissa `3/4 * (3-1) = 3/2`. -/
def polyTrunc : List point_t := [{ x := 3/4, y := 0 }, { x := 0, y := 0 }]

/-- A single point with `x` outside `[0, 1]`. -/
def ptOut : point_t := { x := 3/2, y := 0 }

/-- A two-point polygon containing the out-of-range vertex `ptOut`. -/
def polyOut : List point_t := [ptOut, { x := 0, y := 0 }]

/-- 2×2 cube, 1 channel, element value = buffer index. -/
def imgIdx : image_t :=
  { width := 2, height := 2, channels := 1, data := fun i => (i : ℚ),
    wavelength := fun z => 500 + z }

/-- The in-range corner point `(1, 1)`. -/
def ptCorner : point_t := { x := 1, y := 1 }

/-- 2×2 cube, 1 channel, every element `1`. -/
def imgOnes : image_t :=
  { width := 2, height := 2, channels := 1, data := fun _ => 1, wavelength := fun _ => 500 }

/-- 2×2 cube, 1 channel, element `-1` at buffer index `0`, `1` elsewhere
(a signed-type cube with one negative reading). -/
def imgNeg : image_t :=
  { width := 2, height := 2, channels := 1,
    data := fun i => if i = 0 then -1 else 1, wavelength := fun _ => 500 }

/-- 2×2 cube, 5 channels, every element `1`.  With `wavelength_bins = 2`
the groups take channels {0,1} and {2,3}; channel 4 is trailing. -/
def imgC5 : image_t :=
  { width := 2, height := 2, channels := 5, data := fun _ => 1,
    wavelength := fun z => 500 + z }

/-- Same cube as `imgC5` except at buffer index 4 — pixel 0 of the
trailing channel 4 — where the value is `100`. -/
def imgC5b : image_t :=
  { width := 2, height := 2, channels := 5,
    data := fun i => if i = 4 then 100 else 1, wavelength := fun z => 500 + z }

/-- A data buffer agreeing with `imgC5` on every non-trailing sample
index, differing at the trailing index 4. -/
def dataC5c : ℤ → ℚ := fun i => if i = 4 then 77 else 1

/-! ### Theorems -/

/-- C7: The Type Mapper fails with InvalidArgument exactly when the
channel count is < 1 or > 511, or when the byte width is unsupported for
the element category (unsigned ⇒ {1,2}, signed ⇒ {1,2,4},
floating ⇒ {2,4,8}); for every supported combination it returns a
descriptor without error. -/
theorem C7_type_mapper_domain (cat : DataCategory) (byteWidth : ℕ) (cc : ℤ) :
    (∃ d, get_mat_datatype cat byteWidth cc = Except.ok d) ↔
      (1 ≤ cc ∧ cc ≤ 511 ∧
        match cat with
        | DataCategory.unsignedInt => byteWidth = 1 ∨ byteWidth = 2
        | DataCategory.signedInt => byteWidth = 1 ∨ byteWidth = 2 ∨ byteWidth = 4
        | DataCategory.floatingPoint => byteWidth = 2 ∨ byteWidth = 4 ∨ byteWidth = 8) := by
  rcases cat <;>
    rcases byteWidth with _ | _ | _ | _ | _ | _ | _ | _ | _ | w <;>
      simp only [get_mat_datatype] <;> split_ifs with h <;> simp_all <;> omega

/-- C2 fails on the code: `cv::Point` holds `int`s, so the vertex
coordinates produced by `pt._x * (W-1)`, `pt._y * (H-1)` are *truncated*
toward zero, not rounded to the nearest integer.  At the concrete input
`imgW3` (width 3) and the vertex `(3/4, 0)`, the scaled abscissa is
`3/2`: the code maps it to pixel 1 while round-to-nearest gives 2. -/
theorem C2_counterexample :
    (transformed_pt imgW3 polyTrunc)[0]? ≠
      some (roundHalfAway ((3/4 : ℚ) * ((imgW3.width : ℚ) - 1)),
            roundHalfAway ((0 : ℚ) * ((imgW3.height : ℚ) - 1))) := by
  norm_num [transformed_pt, imgW3, polyTrunc, truncQ, roundHalfAway]

/-- C2 (amended): in the polygon case each normalized vertex `(x, y)` is
mapped to the pixel coordinate `(x*(W-1), y*(H-1))` *truncated toward
zero* — which for the nonnegative coordinate range is the floor, not the
nearest integer — before rasterization. -/
theorem C2_vertex_scaling (img : image_t) (poly : List point_t) (i : ℕ) (pt : point_t)
    (hW : 1 < img.width) (hH : 1 < img.height)
    (hi : poly[i]? = some pt) (hx : 0 ≤ pt.x) (hy : 0 ≤ pt.y) :
    (transformed_pt img poly)[i]? =
      some (⌊pt.x * ((img.width : ℚ) - 1)⌋, ⌊pt.y * ((img.height : ℚ) - 1)⌋) := by
  have hWq : (0 : ℚ) ≤ (img.width : ℚ) - 1 := by
    have : (1 : ℚ) ≤ (img.width : ℚ) := by exact_mod_cast hW.le
    linarith
  have hHq : (0 : ℚ) ≤ (img.height : ℚ) - 1 := by
    have : (1 : ℚ) ≤ (img.height : ℚ) := by exact_mod_cast hH.le
    linarith
  simp [transformed_pt, List.getElem?_map, hi, truncQ,
    mul_nonneg hx hWq, mul_nonneg hy hHq]

/-- Witness for `C2_vertex_scaling` at `imgW3`, `polyTrunc`, vertex 0. -/
theorem C2_vertex_scaling_witness :
    (transformed_pt imgW3 polyTrunc)[0]? =
      some (⌊(3/4 : ℚ) * ((imgW3.width : ℚ) - 1)⌋, ⌊(0 : ℚ) * ((imgW3.height : ℚ) - 1)⌋) :=
  C2_vertex_scaling imgW3 polyTrunc 0 { x := 3/4, y := 0 }
    (by decide) (by decide) rfl (by norm_num) le_rfl

/-- C4: for every cube, `get_spectrum_polygon` on the empty polygon and on
a single point with a coordinate outside `[0,1]` both return, without any
error, the value-initialized sentinel spectrum: `img._channels` entries
with `value = -999.0` and `std = 0.0` (the `stdSq` radicand is 0, and
`sqrt 0 = 0`). -/
theorem C4_sentinel (fp : Rasterizer) (img : image_t) (pt : point_t)
    (hout : 1 < pt.x ∨ pt.x < 0 ∨ 1 < pt.y ∨ pt.y < 0) :
    get_spectrum_polygon fp img [] =
      List.replicate img.channels { wavelength := 0, value := -999, stdSq := 0 } ∧
    get_spectrum_polygon fp img [pt] =
      List.replicate img.channels { wavelength := 0, value := -999, stdSq := 0 } ∧
    Real.sqrt ((0 : ℚ) : ℝ) = 0 := by
  refine ⟨rfl, ?_, by simp⟩
  have hcond : pt.x > 1 ∨ pt.x < 0 ∨ pt.y > 1 ∨ pt.y < 0 := hout
  simp [get_spectrum_polygon, defaultSpectrum, hcond]

/-- Witness for `C4_sentinel` at `imgConst` and the out-of-range point
`ptOut = (3/2, 0)`. -/
theorem C4_sentinel_witness :
    get_spectrum_polygon fpFull imgConst [] =
      List.replicate imgConst.channels { wavelength := 0, value := -999, stdSq := 0 } ∧
    get_spectrum_polygon fpFull imgConst [ptOut] =
      List.replicate imgConst.channels { wavelength := 0, value := -999, stdSq := 0 } ∧
    Real.sqrt ((0 : ℚ) : ℝ) = 0 :=
  C4_sentinel fpFull imgConst ptOut (Or.inl (by norm_num [ptOut]))

/-- C5: for every cube satisfying the preconditions and every single
in-range point, the returned entry for channel `z` has `value` equal to
the raw element at pixel `(round(x*(W-1)), round(y*(H-1)))` and channel
`z` (buffer index `(round(y*(H-1))*W + round(x*(W-1)))*C + z`),
`wavelength` equal to the wavelength-table entry for `z`, and `std`
exactly `0.0`. -/
theorem C5_single_point (fp : Rasterizer) (img : image_t) (pt : point_t) (z : ℕ)
    (hW : 1 < img.width) (hH : 1 < img.height) (hz : z < img.channels)
    (hx0 : 0 ≤ pt.x) (hx1 : pt.x ≤ 1) (hy0 : 0 ≤ pt.y) (hy1 : pt.y ≤ 1) :
    ((get_spectrum_polygon fp img [pt])[z]?).map spectral_mean_t.value =
      some (img.data ((roundHalfAway (pt.y * ((img.height : ℚ) - 1)) * (img.width : ℤ)
        + roundHalfAway (pt.x * ((img.width : ℚ) - 1))) * (img.channels : ℤ) + (z : ℤ))) ∧
    ((get_spectrum_polygon fp img [pt])[z]?).map spectral_mean_t.wavelength =
      some (img.wavelength z) ∧
    ((get_spectrum_polygon fp img [pt])[z]?).map (fun e => Real.sqrt e.stdSq) = some 0 := by
  have hcond : ¬(pt.x > 1 ∨ pt.x < 0 ∨ pt.y > 1 ∨ pt.y < 0) := by
    push_neg
    exact ⟨hx1, hx0, hy1, hy0⟩
  simp [get_spectrum_polygon, hcond, singlePointSpectrum,
    List.getElem?_map, List.getElem?_range, hz]

/-- Witness for `C5_single_point` at `imgIdx` and the corner point
`(1, 1)`, channel 0. -/
theorem C5_single_point_witness :
    ((get_spectrum_polygon fpFull imgIdx [ptCorner])[0]?).map spectral_mean_t.value =
      some (imgIdx.data ((roundHalfAway (ptCorner.y * ((imgIdx.height : ℚ) - 1)) * (imgIdx.width : ℤ)
        + roundHalfAway (ptCorner.x * ((imgIdx.width : ℚ) - 1))) * (imgIdx.channels : ℤ) + (0 : ℤ))) ∧
    ((get_spectrum_polygon fpFull imgIdx [ptCorner])[0]?).map spectral_mean_t.wavelength =
      some (imgIdx.wavelength 0) ∧
    ((get_spectrum_polygon fpFull imgIdx [ptCorner])[0]?).map (fun e => Real.sqrt e.stdSq) =
      some 0 :=
  C5_single_point fpFull imgIdx ptCorner 0 (by decide) (by decide) (by decide)
    (by norm_num [ptCorner]) (by norm_num [ptCorner])
    (by norm_num [ptCorner]) (by norm_num [ptCorner])

/-- Expansion of the population sum of squared deviations: for any `m`,
`∑ (x - m)^2 = ∑ x*x - 2*(∑ x)*m + n*(m*m)` over the masked pixels. -/
lemma sum_sq_dev_expand (img : image_t) (mask : ℕ → ℕ → ℕ) (z : ℕ) (m : ℚ) :
    (∑ p ∈ maskedPixels img mask, (pixVal img p.1 p.2 z - m) ^ 2) =
      sq_sum_v img mask z - 2 * sum_v img mask z * m
        + (insideCount img mask : ℚ) * (m * m) := by
  unfold sq_sum_v sum_v insideCount
  calc (∑ p ∈ maskedPixels img mask, (pixVal img p.1 p.2 z - m) ^ 2)
      = ∑ p ∈ maskedPixels img mask,
          (pixVal img p.1 p.2 z * pixVal img p.1 p.2 z - 2 * pixVal img p.1 p.2 z * m
            + m * m) := by
        refine Finset.sum_congr rfl fun p _ => by ring
    _ = (∑ p ∈ maskedPixels img mask, pixVal img p.1 p.2 z * pixVal img p.1 p.2 z)
          - (∑ p ∈ maskedPixels img mask, 2 * pixVal img p.1 p.2 z * m)
          + (∑ p ∈ maskedPixels img mask, m * m) := by
        rw [Finset.sum_add_distrib, Finset.sum_sub_distrib]
    _ = _ := by
        rw [Finset.sum_const, nsmul_eq_mul]
        congr 1
        congr 1
        calc (∑ p ∈ maskedPixels img mask, 2 * pixVal img p.1 p.2 z * m)
            = (∑ p ∈ maskedPixels img mask, 2 * pixVal img p.1 p.2 z) * m := by
              rw [Finset.sum_mul]
          _ = 2 * (∑ p ∈ maskedPixels img mask, pixVal img p.1 p.2 z) * m := by
              rw [Finset.mul_sum]

/-- C6: in exact arithmetic, for the non-empty multiset of samples taken
by the polygon branch (channel `z` over the masked pixels, `n > 0`,
`mean = sum/n`), the single-pass expression
`sqrt((sq_sum - 2*sum*mean)/n + mean*mean)` equals the population
standard deviation `sqrt(∑ (x - mean)^2 / n)`. -/
theorem C6_variance_identity (img : image_t) (mask : ℕ → ℕ → ℕ) (z : ℕ)
    (hn : 0 < insideCount img mask) :
    Real.sqrt (((sq_sum_v img mask z
        - 2 * sum_v img mask z * (sum_v img mask z / (insideCount img mask : ℚ)))
          / (insideCount img mask : ℚ)
        + (sum_v img mask z / (insideCount img mask : ℚ))
          * (sum_v img mask z / (insideCount img mask : ℚ)) : ℚ) : ℝ) =
    Real.sqrt ((((∑ p ∈ maskedPixels img mask,
        (pixVal img p.1 p.2 z - sum_v img mask z / (insideCount img mask : ℚ)) ^ 2)
          / (insideCount img mask : ℚ) : ℚ) : ℝ)) := by
  have hn' : ((insideCount img mask : ℚ)) ≠ 0 := by
    exact_mod_cast hn.ne'
  have key : (sq_sum_v img mask z
        - 2 * sum_v img mask z * (sum_v img mask z / (insideCount img mask : ℚ)))
          / (insideCount img mask : ℚ)
        + (sum_v img mask z / (insideCount img mask : ℚ))
          * (sum_v img mask z / (insideCount img mask : ℚ))
      = (∑ p ∈ maskedPixels img mask,
          (pixVal img p.1 p.2 z - sum_v img mask z / (insideCount img mask : ℚ)) ^ 2)
            / (insideCount img mask : ℚ) := by
    rw [sum_sq_dev_expand]
    field_simp
    ring
  rw [key]

/-- Witness for `C6_variance_identity` at `imgConst` with the full mask
(4 inside pixels), channel 0. -/
theorem C6_variance_identity_witness :
    Real.sqrt (((sq_sum_v imgConst (fpFull []) 0
        - 2 * sum_v imgConst (fpFull []) 0
            * (sum_v imgConst (fpFull []) 0 / (insideCount imgConst (fpFull []) : ℚ)))
          / (insideCount imgConst (fpFull []) : ℚ)
        + (sum_v imgConst (fpFull []) 0 / (insideCount imgConst (fpFull []) : ℚ))
          * (sum_v imgConst (fpFull []) 0 / (insideCount imgConst (fpFull []) : ℚ)) : ℚ) : ℝ) =
    Real.sqrt ((((∑ p ∈ maskedPixels imgConst (fpFull []),
        (pixVal imgConst p.1 p.2 0 - sum_v imgConst (fpFull []) 0
          / (insideCount imgConst (fpFull []) : ℚ)) ^ 2)
          / (insideCount imgConst (fpFull []) : ℚ) : ℚ) : ℝ)) :=
  C6_variance_identity imgConst (fpFull []) 0 (by decide)

/-- For a binary mask (the output of `cv::fillPoly` with `Scalar(255)` on
a zeroed `CV_8UC1` mask), the spec's inside test "mask value exceeds half
the maximum mask intensity" agrees with the code's test `mask > 128`. -/
lemma specInsideSet_eq_maskedPixels (img : image_t) (mask : ℕ → ℕ → ℕ)
    (hbin : ∀ y x, mask y x = 0 ∨ mask y x = 255) :
    specInsideSet img mask = maskedPixels img mask := by
  unfold specInsideSet maskedPixels
  refine Finset.filter_congr fun p _ => ?_
  rcases hbin p.2 p.1 with h | h <;> simp [h]

/-- With at least two points, `get_spectrum_polygon` takes the polygon
branch. -/
lemma get_spectrum_polygon_two_le (fp : Rasterizer) (img : image_t) (poly : List point_t)
    (h : 1 < poly.length) :
    get_spectrum_polygon fp img poly = polygonSpectrum img (fp (transformed_pt img poly)) := by
  rcases poly with _ | ⟨a, _ | ⟨b, t⟩⟩
  · simp at h
  · simp at h
  · rw [get_spectrum_polygon, if_pos (by simp)]
    intro pt hpt
    simp at hpt

/-- C1: for every cube satisfying the preconditions and every polygon of
at least 2 points whose rasterized (binary) mask contains `n > 0` inside
pixels — pixels whose mask value exceeds half the maximum mask intensity
255 — the returned entry for channel `z` has `value = sum[z]/n` and
`std = sqrt((sqsum[z] - 2*sum[z]*mean)/n + mean*mean)`, where `sum[z]`
and `sqsum[z]` range over exactly those pixels. -/
theorem C1_polygon_mean_std (fp : Rasterizer) (img : image_t) (poly : List point_t) (z : ℕ)
    (hW : 1 < img.width) (hH : 1 < img.height) (hz : z < img.channels)
    (hpoly : 2 ≤ poly.length)
    (hbin : ∀ y x, fp (transformed_pt img poly) y x = 0
      ∨ fp (transformed_pt img poly) y x = 255)
    (hn : 0 < (specInsideSet img (fp (transformed_pt img poly))).card) :
    ((get_spectrum_polygon fp img poly)[z]?).map spectral_mean_t.value =
      some ((∑ p ∈ specInsideSet img (fp (transformed_pt img poly)), pixVal img p.1 p.2 z)
        / ((specInsideSet img (fp (transformed_pt img poly))).card : ℚ)) ∧
    ((get_spectrum_polygon fp img poly)[z]?).map (fun e => Real.sqrt e.stdSq) =
      some (Real.sqrt ((((∑ p ∈ specInsideSet img (fp (transformed_pt img poly)),
            pixVal img p.1 p.2 z * pixVal img p.1 p.2 z)
          - 2 * (∑ p ∈ specInsideSet img (fp (transformed_pt img poly)), pixVal img p.1 p.2 z)
            * ((∑ p ∈ specInsideSet img (fp (transformed_pt img poly)), pixVal img p.1 p.2 z)
              / ((specInsideSet img (fp (transformed_pt img poly))).card : ℚ)))
          / ((specInsideSet img (fp (transformed_pt img poly))).card : ℚ)
        + ((∑ p ∈ specInsideSet img (fp (transformed_pt img poly)), pixVal img p.1 p.2 z)
            / ((specInsideSet img (fp (transformed_pt img poly))).card : ℚ))
          * ((∑ p ∈ specInsideSet img (fp (transformed_pt img poly)), pixVal img p.1 p.2 z)
            / ((specInsideSet img (fp (transformed_pt img poly))).card : ℚ)) : ℚ) : ℝ)) := by
  have hspec := specInsideSet_eq_maskedPixels img (fp (transformed_pt img poly)) hbin
  have hlen : 1 < poly.length := lt_of_lt_of_le one_lt_two hpoly
  rw [get_spectrum_polygon_two_le fp img poly hlen]
  unfold polygonSpectrum
  rw [hspec]
  simp only [List.getElem?_map, List.getElem?_range, hz, Option.map_some, sum_v, sq_sum_v,
    insideCount]
  exact ⟨rfl, rfl⟩

/-- Witness for `C1_polygon_mean_std` at `imgConst`, the full-mask
rasterizer and the two-point polygon `polySquare`, channel 0. -/
theorem C1_polygon_mean_std_witness :
    ((get_spectrum_polygon fpFull imgConst polySquare)[0]?).map spectral_mean_t.value =
      some ((∑ p ∈ specInsideSet imgConst (fpFull (transformed_pt imgConst polySquare)),
          pixVal imgConst p.1 p.2 0)
        / ((specInsideSet imgConst (fpFull (transformed_pt imgConst polySquare))).card : ℚ)) ∧
    ((get_spectrum_polygon fpFull imgConst polySquare)[0]?).map (fun e => Real.sqrt e.stdSq) =
      some (Real.sqrt ((((∑ p ∈ specInsideSet imgConst (fpFull (transformed_pt imgConst polySquare)),
            pixVal imgConst p.1 p.2 0 * pixVal imgConst p.1 p.2 0)
          - 2 * (∑ p ∈ specInsideSet imgConst (fpFull (transformed_pt imgConst polySquare)),
              pixVal imgConst p.1 p.2 0)
            * ((∑ p ∈ specInsideSet imgConst (fpFull (transformed_pt imgConst polySquare)),
                pixVal imgConst p.1 p.2 0)
              / ((specInsideSet imgConst (fpFull (transformed_pt imgConst polySquare))).card : ℚ)))
          / ((specInsideSet imgConst (fpFull (transformed_pt imgConst polySquare))).card : ℚ)
        + ((∑ p ∈ specInsideSet imgConst (fpFull (transformed_pt imgConst polySquare)),
              pixVal imgConst p.1 p.2 0)
            / ((specInsideSet imgConst (fpFull (transformed_pt imgConst polySquare))).card : ℚ))
          * ((∑ p ∈ specInsideSet imgConst (fpFull (transformed_pt imgConst polySquare)),
              pixVal imgConst p.1 p.2 0)
            / ((specInsideSet imgConst (fpFull (transformed_pt imgConst polySquare))).card : ℚ)) : ℚ) : ℝ)) :=
  C1_polygon_mean_std fpFull imgConst polySquare 0 (by decide) (by decide) (by decide)
    (by decide) (fun _ _ => Or.inr rfl) (by decide)

/-- C10: the polygon branch performs no range validation on vertex
coordinates.  For every polygon of at least 2 points containing an
out-of-range vertex: the vertex is scaled by the same
`trunc(coord * (dim-1))` formula as any other, the result is the
polygon-branch accumulation (neither an error nor the sentinel is
produced because of the out-of-range vertex) — unlike the single-point
case, which checks the range and returns the sentinel for this very
point. -/
theorem C10_no_range_validation (fp : Rasterizer) (img : image_t) (poly : List point_t)
    (i : ℕ) (pt : point_t)
    (hpoly : 2 ≤ poly.length) (hi : poly[i]? = some pt)
    (hout : 1 < pt.x ∨ pt.x < 0 ∨ 1 < pt.y ∨ pt.y < 0) :
    (transformed_pt img poly)[i]? =
      some (truncQ (pt.x * ((img.width : ℚ) - 1)), truncQ (pt.y * ((img.height : ℚ) - 1))) ∧
    get_spectrum_polygon fp img poly = polygonSpectrum img (fp (transformed_pt img poly)) ∧
    get_spectrum_polygon fp img [pt] =
      List.replicate img.channels { wavelength := 0, value := -999, stdSq := 0 } := by
  have hlen : 1 < poly.length := lt_of_lt_of_le one_lt_two hpoly
  have hcond : pt.x > 1 ∨ pt.x < 0 ∨ pt.y > 1 ∨ pt.y < 0 := hout
  refine ⟨?_, ?_, ?_⟩
  · simp [transformed_pt, List.getElem?_map, hi]
  · exact get_spectrum_polygon_two_le fp img poly hlen
  · simp [get_spectrum_polygon, defaultSpectrum, hcond]

/-- Witness for `C10_no_range_validation` at `imgConst`, the polygon
`polyOut` whose vertex 0 is the out-of-range point `ptOut = (3/2, 0)`. -/
theorem C10_no_range_validation_witness :
    (transformed_pt imgConst polyOut)[0]? =
      some (truncQ (ptOut.x * ((imgConst.width : ℚ) - 1)),
            truncQ (ptOut.y * ((imgConst.height : ℚ) - 1))) ∧
    get_spectrum_polygon fpFull imgConst polyOut =
      polygonSpectrum imgConst (fpFull (transformed_pt imgConst polyOut)) ∧
    get_spectrum_polygon fpFull imgConst [ptOut] =
      List.replicate imgConst.channels { wavelength := 0, value := -999, stdSq := 0 } :=
  C10_no_range_validation fpFull imgConst polyOut 0 ptOut (by decide) rfl
    (Or.inl (by norm_num [ptOut]))

/-- C9: for every histogram group `g` and bucket `i`, the bucket label
`count[i]` equals `(i * bin_size) / 100.0` when the processing mode is
`Cube_Reflectance` and `i * bin_size` for every other mode, where
`bin_size = max_val / count_bins` and `max_val` is the detected cube
maximum when `detect_max` is set and the element type's theoretical
maximum otherwise. -/
theorem C9_bucket_labels (img : image_t) (typeMax : ℚ) (count_bins wavelength_bins : ℕ)
    (detect_max_value : Bool) (proc_mode : cuvis_processing_mode_t) (g i : ℕ)
    (hg : g < img.channels / (img.channels / wavelength_bins))
    (hi : i < count_bins) :
    ((get_histogram img typeMax count_bins wavelength_bins detect_max_value proc_mode)[g]?).map
        (fun h => h.count[i]?) =
      some (some (if proc_mode = cuvis_processing_mode_t.Cube_Reflectance then
          ((i : ℚ) * ((if detect_max_value then cubeMax img else typeMax) / (count_bins : ℚ))) / 100
        else
          (i : ℚ) * ((if detect_max_value then cubeMax img else typeMax) / (count_bins : ℚ)))) := by
  simp only [get_histogram, List.getElem?_map, List.getElem?_range, hg, hi,
    Option.map_some]
  simp [List.getElem?_map, List.getElem?_range, hi]

/-- Witness for `C9_bucket_labels` at `imgOnes` with `typeMax = 255`,
2 buckets, 1 wavelength bin, `detect_max` unset, reflectance mode,
group 0, bucket 1. -/
theorem C9_bucket_labels_witness :
    ((get_histogram imgOnes 255 2 1 false cuvis_processing_mode_t.Cube_Reflectance)[0]?).map
        (fun h => h.count[1]?) =
      some (some (if cuvis_processing_mode_t.Cube_Reflectance = cuvis_processing_mode_t.Cube_Reflectance then
          ((1 : ℚ) * ((if false then cubeMax imgOnes else (255 : ℚ)) / ((2 : ℕ) : ℚ))) / 100
        else
          (1 : ℚ) * ((if false then cubeMax imgOnes else (255 : ℚ)) / ((2 : ℕ) : ℚ)))) :=
  C9_bucket_labels imgOnes 255 2 1 false cuvis_processing_mode_t.Cube_Reflectance 0 1
    (by decide) (by decide)

/-- Summing a function mapped over `List.range` is the `Finset.range`
sum. -/
lemma list_range_map_sum (n : ℕ) (f : ℕ → ℕ) :
    ((List.range n).map f).sum = ∑ i ∈ Finset.range n, f i := by
  induction n with
  | zero => simp
  | succ m ih =>
    rw [List.range_succ, List.map_append, List.sum_append, Finset.sum_range_succ, ih]
    simp

/-- The max-fold dominates its initial accumulator. -/
lemma le_foldl_max (f : ℕ → ℚ) (l : List ℕ) (a : ℚ) :
    a ≤ l.foldl (fun acc i => max acc (f i)) a := by
  induction l generalizing a with
  | nil => simp
  | cons b t ih => exact le_trans (le_max_left a (f b)) (ih (max a (f b)))

/-- The max-fold dominates every listed value. -/
lemma mem_le_foldl_max (f : ℕ → ℚ) (x : ℕ) :
    ∀ (l : List ℕ) (a : ℚ), x ∈ l → f x ≤ l.foldl (fun acc i => max acc (f i)) a := by
  intro l
  induction l with
  | nil =>
    intro a hx
    simp at hx
  | cons b t ih =>
    intro a hx
    rcases List.mem_cons.mp hx with h | h
    · subst h
      exact le_trans (le_max_right a (f x)) (le_foldl_max f t (max a (f x)))
    · exact ih (max a (f b)) h

/-- Every buffer element is bounded by the detected cube maximum. -/
lemma le_cubeMax (img : image_t) (j : ℕ)
    (hj : j < img.width * img.height * img.channels) :
    img.data (j : ℤ) ≤ cubeMax img := by
  have h := mem_le_foldl_max (fun i => img.data (i : ℤ)) j
    (List.range (img.width * img.height * img.channels)) (img.data 0)
    (List.mem_range.mpr hj)
  simpa only [cubeMax] using h

/-- A sample contributes at most once across all buckets. -/
lemma inner_ite_sum_le (f : ℕ × ℕ → Option ℕ) (bins : ℕ) (s : ℕ × ℕ) :
    (∑ i ∈ Finset.range bins, if f s = some i then (1 : ℕ) else 0) ≤ 1 := by
  classical
  cases hfs : f s with
  | none => simp [hfs]
  | some j =>
    simp only [hfs, Option.some.injEq]
    rw [Finset.sum_ite_eq]
    split <;> simp

/-- A sample landing in an in-range bucket contributes exactly once. -/
lemma inner_ite_sum_eq_one (f : ℕ × ℕ → Option ℕ) (bins : ℕ) (s : ℕ × ℕ) (j : ℕ)
    (hfs : f s = some j) (hj : j < bins) :
    (∑ i ∈ Finset.range bins, if f s = some i then (1 : ℕ) else 0) = 1 := by
  classical
  simp only [hfs, Option.some.injEq]
  rw [Finset.sum_ite_eq]
  simp [Finset.mem_range, hj]

/-- The bucket fibers partition counted samples: summing the per-bucket
cardinalities equals summing per-sample indicators. -/
lemma sum_fiber_card (S : Finset (ℕ × ℕ)) (f : ℕ × ℕ → Option ℕ) (bins : ℕ) :
    (∑ i ∈ Finset.range bins, (S.filter fun s => f s = some i).card)
      = ∑ s ∈ S, ∑ i ∈ Finset.range bins, if f s = some i then (1 : ℕ) else 0 := by
  classical
  calc (∑ i ∈ Finset.range bins, (S.filter fun s => f s = some i).card)
      = ∑ i ∈ Finset.range bins, ∑ s ∈ S, if f s = some i then (1 : ℕ) else 0 := by
        refine Finset.sum_congr rfl fun i _ => ?_
        rw [Finset.card_filter]
    _ = _ := Finset.sum_comm

/-- The occurrence counts of a group sum to at most the sample count
`cpg * (W*H)`. -/
lemma occurrence_sum_le (img : image_t) (max_val : ℚ) (count_bins cpg g : ℕ) :
    (∑ i ∈ Finset.range count_bins, occurrenceCount img max_val count_bins cpg g i)
      ≤ cpg * (img.width * img.height) := by
  classical
  unfold occurrenceCount
  rw [sum_fiber_card]
  calc (∑ s ∈ groupSamples img cpg, ∑ i ∈ Finset.range count_bins,
          if bucketIdx max_val count_bins (sampleVal img cpg g s) = some i then (1 : ℕ) else 0)
      ≤ ∑ _s ∈ groupSamples img cpg, 1 :=
        Finset.sum_le_sum fun s _ =>
          inner_ite_sum_le (fun s => bucketIdx max_val count_bins (sampleVal img cpg g s))
            count_bins s
    _ = (groupSamples img cpg).card := by simp
    _ = cpg * (img.width * img.height) := by
        simp [groupSamples, Nat.mul_comm]

/-- When every sample of the group is inside `[0, max_val]` and there is
at least one bucket, every sample is counted: the occurrence counts sum
to exactly `cpg * (W*H)`. -/
lemma occurrence_sum_eq (img : image_t) (max_val : ℚ) (count_bins cpg g : ℕ)
    (hbins : 0 < count_bins)
    (hall : ∀ s ∈ groupSamples img cpg,
      0 ≤ sampleVal img cpg g s ∧ sampleVal img cpg g s ≤ max_val) :
    (∑ i ∈ Finset.range count_bins, occurrenceCount img max_val count_bins cpg g i)
      = cpg * (img.width * img.height) := by
  classical
  unfold occurrenceCount
  rw [sum_fiber_card]
  calc (∑ s ∈ groupSamples img cpg, ∑ i ∈ Finset.range count_bins,
          if bucketIdx max_val count_bins (sampleVal img cpg g s) = some i then (1 : ℕ) else 0)
      = ∑ _s ∈ groupSamples img cpg, 1 := by
        refine Finset.sum_congr rfl fun s hs => ?_
        obtain ⟨h0, hmax⟩ := hall s hs
        have hcond : ¬(sampleVal img cpg g s < 0 ∨ max_val < sampleVal img cpg g s) := by
          push_neg
          exact ⟨h0, hmax⟩
        refine inner_ite_sum_eq_one
          (fun s => bucketIdx max_val count_bins (sampleVal img cpg g s)) count_bins s
          (min (⌊sampleVal img cpg g s * (count_bins : ℚ) / max_val⌋).toNat (count_bins - 1))
          ?_ ?_
        · simp [bucketIdx, hcond]
        · exact lt_of_le_of_lt (Nat.min_le_right _ _) (Nat.sub_lt hbins Nat.one_pos)
    _ = (groupSamples img cpg).card := by simp
    _ = cpg * (img.width * img.height) := by
        simp [groupSamples, Nat.mul_comm]

/-- The buffer index of sample `s` of group `g` is inside the cube. -/
lemma sample_index_lt (img : image_t) (wavelength_bins g : ℕ) (s : ℕ × ℕ)
    (hg : g < img.channels / (img.channels / wavelength_bins))
    (hs : s ∈ groupSamples img (img.channels / wavelength_bins)) :
    s.1 * img.channels + (g * (img.channels / wavelength_bins) + s.2)
      < img.width * img.height * img.channels := by
  set cpg := img.channels / wavelength_bins with hcpg
  obtain ⟨hs1, hs2⟩ := Finset.mem_product.mp hs
  have hp : s.1 < img.width * img.height := List.mem_range.mp (by simpa using hs1)
  have hc : s.2 < cpg := List.mem_range.mp (by simpa using hs2)
  have hz : g * cpg + s.2 < img.channels := by
    have h1 : g * cpg + s.2 < (g + 1) * cpg := by
      rw [Nat.succ_mul]
      omega
    have h2 : (g + 1) * cpg ≤ (img.channels / cpg) * cpg :=
      Nat.mul_le_mul_right cpg hg
    have h3 : (img.channels / cpg) * cpg ≤ img.channels := Nat.div_mul_le_self _ _
    omega
  calc s.1 * img.channels + (g * cpg + s.2)
      < s.1 * img.channels + img.channels := by omega
    _ = (s.1 + 1) * img.channels := by ring
    _ ≤ (img.width * img.height) * img.channels := Nat.mul_le_mul_right _ hp
    _ = img.width * img.height * img.channels := rfl

/-- C3 fails on the code as stated: with `detect_max = true`, negative
readings (possible for the signed element types) fall outside
`[0, max_val]` and are excluded from every bucket, so the occurrence sum
can be strictly below `channels_per_group * W * H`.  Concretely, for the
2×2 single-channel cube `imgNeg` (one reading `-1`, three readings `1`),
`detect_max = true` and one bucket, the single group's occurrence sum is
3 while `channels_per_group * W * H = 4`. -/
theorem C3_counterexample :
    ((get_histogram imgNeg 255 1 1 true cuvis_processing_mode_t.Cube_Raw)[0]?).map
        (fun h => h.occurrence.sum) = some 3 ∧
    (imgNeg.channels / 1) * (imgNeg.width * imgNeg.height) = 4 := by
  constructor
  · have hmax : cubeMax imgNeg = 1 := by
      norm_num [cubeMax, imgNeg, List.range_succ, max_def]
    have hocc : occurrenceCount imgNeg 1 1 1 0 0 = 3 := by
      rw [occurrenceCount, Finset.card_filter, groupSamples]
      rw [Finset.sum_product]
      norm_num [imgNeg, sampleVal, bucketIdx, Finset.sum_range_succ, Finset.filter_singleton]
      simp
    have hch : imgNeg.channels = 1 := rfl
    simp [get_histogram, hch, hmax, hocc, List.range_succ]
  · decide

/-- C3 (amended): for every cube and group, the occurrence counts sum to
at most `channels_per_group * W * H`; when `detect_max` is true *and all
cube readings are nonnegative* the sum is exactly
`channels_per_group * W * H` (a negative reading is excluded from all
buckets even then, see `C3_counterexample`); values outside
`[0, max_val]` are excluded from all buckets rather than clamped, so with
`detect_max` false the sum may be strictly smaller. -/
theorem C3_occurrence_sum (img : image_t) (typeMax : ℚ)
    (count_bins wavelength_bins : ℕ) (detect_max_value : Bool)
    (proc_mode : cuvis_processing_mode_t) (g : ℕ)
    (hbins : 0 < count_bins)
    (hg : g < img.channels / (img.channels / wavelength_bins)) :
    ((get_histogram img typeMax count_bins wavelength_bins detect_max_value proc_mode)[g]?).map
        (fun h => h.occurrence.sum) =
      some (∑ i ∈ Finset.range count_bins,
        occurrenceCount img (if detect_max_value then cubeMax img else typeMax)
          count_bins (img.channels / wavelength_bins) g i) ∧
    (∑ i ∈ Finset.range count_bins,
        occurrenceCount img (if detect_max_value then cubeMax img else typeMax)
          count_bins (img.channels / wavelength_bins) g i)
      ≤ (img.channels / wavelength_bins) * (img.width * img.height) ∧
    (detect_max_value = true →
      (∀ j : ℕ, j < img.width * img.height * img.channels → 0 ≤ img.data (j : ℤ)) →
      (∑ i ∈ Finset.range count_bins,
          occurrenceCount img (if detect_max_value then cubeMax img else typeMax)
            count_bins (img.channels / wavelength_bins) g i)
        = (img.channels / wavelength_bins) * (img.width * img.height)) := by
  refine ⟨?_, occurrence_sum_le img _ count_bins _ g, ?_⟩
  · simp only [get_histogram, List.getElem?_map, List.getElem?_range, hg, Option.map_some]
    simp [list_range_map_sum]
  · intro hdet hpos
    refine occurrence_sum_eq img _ count_bins _ g hbins fun s hs => ?_
    have hidx := sample_index_lt img wavelength_bins g s hg hs
    have h0 : 0 ≤ sampleVal img (img.channels / wavelength_bins) g s :=
      hpos _ hidx
    refine ⟨h0, ?_⟩
    have := le_cubeMax img
      (s.1 * img.channels + (g * (img.channels / wavelength_bins) + s.2)) hidx
    rw [hdet]
    simpa [sampleVal] using this

/-- Witness for `C3_occurrence_sum` at the all-ones cube `imgOnes`,
one bucket, one wavelength bin, `detect_max = true`: the sum both is at
most and (data being nonnegative) equals `1 * (2*2) = 4`. -/
theorem C3_occurrence_sum_witness :
    (((get_histogram imgOnes 255 1 1 true cuvis_processing_mode_t.Cube_Raw)[0]?).map
        (fun h => h.occurrence.sum) =
      some (∑ i ∈ Finset.range 1,
        occurrenceCount imgOnes (if true then cubeMax imgOnes else 255) 1
          (imgOnes.channels / 1) 0 i)) ∧
    (∑ i ∈ Finset.range 1,
        occurrenceCount imgOnes (if true then cubeMax imgOnes else 255) 1
          (imgOnes.channels / 1) 0 i)
      ≤ (imgOnes.channels / 1) * (imgOnes.width * imgOnes.height) ∧
    (∑ i ∈ Finset.range 1,
        occurrenceCount imgOnes (if true then cubeMax imgOnes else 255) 1
          (imgOnes.channels / 1) 0 i)
      = (imgOnes.channels / 1) * (imgOnes.width * imgOnes.height) := by
  have h := C3_occurrence_sum imgOnes 255 1 1 true cuvis_processing_mode_t.Cube_Raw 0
    (by decide) (by decide)
  exact ⟨h.1, h.2.1, h.2.2 rfl (fun j _ => by norm_num [imgOnes])⟩

/-- Occurrence counts only read the sampled values. -/
lemma occurrenceCount_congr (img : image_t) (data2 : ℤ → ℚ) (max_val : ℚ)
    (count_bins cpg g i : ℕ)
    (hval : ∀ s ∈ groupSamples img cpg,
      sampleVal { img with data := data2 } cpg g s = sampleVal img cpg g s) :
    occurrenceCount { img with data := data2 } max_val count_bins cpg g i
      = occurrenceCount img max_val count_bins cpg g i := by
  unfold occurrenceCount
  have hgs : groupSamples { img with data := data2 } cpg = groupSamples img cpg := rfl
  rw [hgs]
  refine congrArg Finset.card (Finset.filter_congr fun s hs => ?_)
  rw [hval s hs]

/-- C8 fails on the code as stated: with `detect_max = true` the trailing
channels do contribute to every histogram, through the detected maximum
(and hence `bin_size` and the bucket boundaries).  `imgC5` and `imgC5b`
are 2×2×5 cubes agreeing on every sample of the two pooled groups
(channels 0-3) and differing only in the trailing channel 4, yet their
histogram vectors differ. -/
theorem C8_counterexample :
    get_histogram imgC5 255 2 2 true cuvis_processing_mode_t.Cube_Raw ≠
      get_histogram imgC5b 255 2 2 true cuvis_processing_mode_t.Cube_Raw := by
  intro h
  have h2 := congrArg (fun l => l.map histogram_t.count) h
  have hmaxA : cubeMax imgC5 = 1 := by
    norm_num [cubeMax, imgC5, List.range_succ, max_def]
  have hmaxB : cubeMax imgC5b = 100 := by
    norm_num [cubeMax, imgC5b, List.range_succ, max_def]
  have hchA : imgC5.channels = 5 := rfl
  have hchB : imgC5b.channels = 5 := rfl
  simp only [get_histogram, hmaxA, hmaxB, hchA, hchB, if_true] at h2
  norm_num [List.range_succ] at h2
  rw [if_neg (by decide), if_neg (by decide)] at h2
  norm_num at h2

/-- C8 (amended): `channels_per_group = ⌊C / wavelength_bins⌋` and
`group_count = ⌊C / channels_per_group⌋`; `get_histogram` produces
exactly `group_count` histograms in increasing group order, the `g`-th
having wavelength-table entry
`g*channels_per_group + ⌊channels_per_group/2⌋`; and — when `detect_max`
is false — trailing channels beyond `group_count * channels_per_group`
contribute to no histogram: the output is unchanged under any
modification of the data outside the pooled sample indices.  (With
`detect_max` true the trailing data can shift the detected maximum and
thereby every histogram, see `C8_counterexample`.) -/
theorem C8_group_structure (img : image_t) (data2 : ℤ → ℚ) (typeMax : ℚ)
    (count_bins wavelength_bins : ℕ) (detect_max_value : Bool)
    (proc_mode : cuvis_processing_mode_t) (g : ℕ)
    (hg : g < img.channels / (img.channels / wavelength_bins))
    (hagree : ∀ p z : ℕ, p < img.width * img.height →
      z < (img.channels / (img.channels / wavelength_bins)) * (img.channels / wavelength_bins) →
      data2 ((p * img.channels + z : ℕ) : ℤ) = img.data ((p * img.channels + z : ℕ) : ℤ)) :
    (get_histogram img typeMax count_bins wavelength_bins detect_max_value proc_mode).length
        = img.channels / (img.channels / wavelength_bins) ∧
    ((get_histogram img typeMax count_bins wavelength_bins detect_max_value proc_mode)[g]?).map
        histogram_t.wavelength
      = some (img.wavelength (g * (img.channels / wavelength_bins)
          + (img.channels / wavelength_bins) / 2)) ∧
    get_histogram { img with data := data2 } typeMax count_bins wavelength_bins false proc_mode
      = get_histogram img typeMax count_bins wavelength_bins false proc_mode := by
  refine ⟨?_, ?_, ?_⟩
  · simp [get_histogram]
  · simp only [get_histogram, List.getElem?_map, List.getElem?_range, hg, Option.map_some]
    simp
  · simp only [get_histogram]
    refine List.map_congr_left fun g' hg' => ?_
    have hg'lt : g' < img.channels / (img.channels / wavelength_bins) :=
      List.mem_range.mp hg'
    congr 1
    refine List.map_congr_left fun i _ => ?_
    refine occurrenceCount_congr img data2 typeMax count_bins
      (img.channels / wavelength_bins) g' i fun s hs => ?_
    obtain ⟨hs1, hs2⟩ := Finset.mem_product.mp hs
    have hp : s.1 < img.width * img.height := by simpa using hs1
    have hc : s.2 < img.channels / wavelength_bins := by simpa using hs2
    have hz : g' * (img.channels / wavelength_bins) + s.2
        < (img.channels / (img.channels / wavelength_bins)) * (img.channels / wavelength_bins) := by
      have h1 : g' * (img.channels / wavelength_bins) + s.2
          < (g' + 1) * (img.channels / wavelength_bins) := by
        rw [Nat.succ_mul]
        omega
      have h2 : (g' + 1) * (img.channels / wavelength_bins)
          ≤ (img.channels / (img.channels / wavelength_bins)) * (img.channels / wavelength_bins) :=
        Nat.mul_le_mul_right _ hg'lt
      omega
    exact hagree s.1 (g' * (img.channels / wavelength_bins) + s.2) hp hz

/-- Witness for `C8_group_structure` at `imgC5` (2×2×5 cube),
`wavelength_bins = 2` (so `channels_per_group = 2`, `group_count = 2`),
group 0, and the trailing-channel modification `dataC5c`. -/
theorem C8_group_structure_witness :
    (get_histogram imgC5 255 1 2 false cuvis_processing_mode_t.Cube_Raw).length
        = imgC5.channels / (imgC5.channels / 2) ∧
    ((get_histogram imgC5 255 1 2 false cuvis_processing_mode_t.Cube_Raw)[0]?).map
        histogram_t.wavelength
      = some (imgC5.wavelength (0 * (imgC5.channels / 2) + (imgC5.channels / 2) / 2)) ∧
    get_histogram { imgC5 with data := dataC5c } 255 1 2 false cuvis_processing_mode_t.Cube_Raw
      = get_histogram imgC5 255 1 2 false cuvis_processing_mode_t.Cube_Raw :=
  C8_group_structure imgC5 dataC5c 255 1 2 false cuvis_processing_mode_t.Cube_Raw 0
    (by decide)
    (by
      intro p z hp hz
      have h5 : imgC5.channels = 5 := rfl
      rw [h5] at hz ⊢
      norm_num at hz
      have hne : ¬((p : ℤ) * 5 + (z : ℤ) = 4) := by omega
      simp [dataC5c, imgC5, hne])

end cuvis.aux.spectral
